import Mathlib

/-!
Verification development for the daily-task tracker (`app.py`).

The program stores two tables:
  * `tasks(id, day, task)` — recurring tasks, one weekday name per task;
  * `progress(date TEXT, task_id INTEGER, completed BOOLEAN)` with primary
    key `(date, task_id)`.

The analytics core is `calculate_statistics` (pandas group-bys over the
progress log) and `get_weekly_progress` (per-date percentage against the
tasks currently assigned to that date's weekday), plus the "frequently
incomplete" SQL ranking in `show_insights`.

This file shallowly embeds those functions over plain lists and proves the
specification claims about them.  Dates are modelled by a proleptic
Gregorian calendar (the same calendar `datetime` / pandas use for the
supported year range 1..9999); rates are modelled by rationals.
-/

/-- A calendar date as parsed from a `YYYY-MM-DD` string. -/
structure Date where
  year : Nat
  month : Nat
  day : Nat
deriving DecidableEq, Repr

/-- Gregorian leap-year rule (as used by `datetime` / pandas). -/
def isLeap (y : Nat) : Bool :=
  (y % 4 == 0 && y % 100 != 0) || y % 400 == 0

/-- Number of days in month `m` of year `y`. -/
def daysInMonth (y m : Nat) : Nat :=
  if m = 2 then (if isLeap y then 29 else 28)
  else if m = 4 ∨ m = 6 ∨ m = 9 ∨ m = 11 then 30
  else 31

/-- A date `datetime.strptime(_, '%Y-%m-%d')` accepts: year 1..9999 (Python
`datetime.MINYEAR`/`MAXYEAR`), month 1..12, day within the month. -/
def validDate (d : Date) : Bool :=
  1 ≤ d.year && d.year ≤ 9999 && 1 ≤ d.month && d.month ≤ 12 &&
    1 ≤ d.day && d.day ≤ daysInMonth d.year d.month

/-- Split a character list at every `'-'` (the field separator of the
`'%Y-%m-%d'` format); same grouping as `str.split('-')`. -/
def splitDash : List Char → List (List Char)
  | [] => [[]]
  | c :: cs =>
    if c = '-' then [] :: splitDash cs
    else
      match splitDash cs with
      | [] => [[c]]
      | g :: gs => (c :: g) :: gs

/-- Read a non-empty all-digit character group as a number, as the
`strptime` directives `%Y`/`%m`/`%d` do; `none` on anything else. -/
def digitsToNat : List Char → Option Nat
  | [] => none
  | cs =>
    if cs.all (fun c => c.isDigit) then
      some (cs.foldl (fun n c => n * 10 + (c.toNat - 48)) 0)
    else none

/-- Parse a `YYYY-MM-DD` date string; `none` models the `ValueError` raised
by `datetime.strptime(date_str, '%Y-%m-%d')` / `pd.to_datetime` on input
that is not a valid calendar date. -/
def parseDate (s : String) : Option Date :=
  match splitDash s.data with
  | [ys, ms, ds] =>
    match digitsToNat ys, digitsToNat ms, digitsToNat ds with
    | some y, some m, some d =>
      if validDate ⟨y, m, d⟩ then some ⟨y, m, d⟩ else none
    | _, _, _ => none
  | _ => none

/-- Days strictly before January 1 of year `y` in the proleptic Gregorian
calendar (year 1 is the first year). -/
def daysBeforeYear (y : Nat) : Nat :=
  365 * (y - 1) + (y - 1) / 4 - (y - 1) / 100 + (y - 1) / 400

/-- Days of year `y` strictly before the first day of month `m`. -/
def daysBeforeMonth (y m : Nat) : Nat :=
  (List.range (m - 1)).foldl (fun acc i => acc + daysInMonth y (i + 1)) 0

/-- One-based ordinal day of the year (`datetime.timetuple().tm_yday`). -/
def ordinalDay (d : Date) : Nat :=
  daysBeforeMonth d.year d.month + d.day

/-- Rata-die day number: day 1 is 0001-01-01 (a Monday). -/
def rataDie (d : Date) : Nat :=
  daysBeforeYear d.year + ordinalDay d

/-- ISO weekday, Monday = 1 .. Sunday = 7 (`datetime.isoweekday()`). -/
def isoWeekday (d : Date) : Nat :=
  (rataDie d - 1) % 7 + 1

/-- Weekday name as produced by `strftime('%A')` / `Series.dt.day_name()`. -/
def dayName (d : Date) : String :=
  match isoWeekday d with
  | 1 => "Monday"
  | 2 => "Tuesday"
  | 3 => "Wednesday"
  | 4 => "Thursday"
  | 5 => "Friday"
  | 6 => "Saturday"
  | _ => "Sunday"

/-- An ISO year is "long" (53 weeks) iff January 1 falls on Thursday, or on
Wednesday in a leap year. -/
def isLongIsoYear (y : Nat) : Bool :=
  isoWeekday ⟨y, 1, 1⟩ == 4 || (isLeap y && isoWeekday ⟨y, 1, 1⟩ == 3)

/-- Number of ISO weeks (52 or 53) in year `y`. -/
def isoWeeksInYear (y : Nat) : Nat :=
  if isLongIsoYear y then 53 else 52

/-- ISO-8601 week number of the year, 1..53, as computed by
`Series.dt.isocalendar().week` — NOT qualified by year. -/
def isoWeek (d : Date) : Nat :=
  let w := (ordinalDay d + 10 - isoWeekday d) / 7
  if w = 0 then isoWeeksInYear (d.year - 1)
  else if w = 53 && !isLongIsoYear d.year then 1
  else w

/-- Lexicographic key for the calendar order on dates: on valid dates this
is exactly chronological order, i.e. the order `datetime` values (and hence
pandas group-by keys over them) sort in. -/
def Date.toTriple (d : Date) : Nat ×ₗ (Nat ×ₗ Nat) :=
  toLex (d.year, toLex (d.month, d.day))

theorem Date.toTriple_injective : Function.Injective Date.toTriple := by
  intro a b h
  cases a; cases b
  simp only [Date.toTriple, toLex_inj, Prod.mk.injEq] at h
  simp [h.1, h.2.1, h.2.2]

instance : LinearOrder Date :=
  LinearOrder.lift' Date.toTriple Date.toTriple_injective

theorem String.data_injective : Function.Injective String.data := by
  intro a b h
  cases a; cases b
  simp only at h
  exact congrArg String.mk h

/-- The order SQLite's default BINARY collation gives `ORDER BY date`:
bytewise, i.e. lexicographic on the characters for the ASCII strings at
hand.  (Declared with high priority so that sortedness statements below are
kernel-computable; it agrees with the existing string order.) -/
instance (priority := 2000) sqliteStringOrder : LinearOrder String :=
  LinearOrder.lift' String.data String.data_injective

/-! ### Sorted deduplication

Both SQLite's `SELECT DISTINCT date FROM progress ORDER BY date` and
pandas' `groupby` produce the distinct keys in ascending order; `insertDedup`
/ `sortedDedup` model that. -/

/-- Insert `a` into a sorted duplicate-free list, keeping it sorted and
duplicate-free. -/
def insertDedup {α : Type} [LinearOrder α] (a : α) : List α → List α
  | [] => [a]
  | b :: bs =>
    if a = b then b :: bs
    else if a < b then a :: b :: bs
    else b :: insertDedup a bs

/-- The distinct elements of `l`, in ascending order. -/
def sortedDedup {α : Type} [LinearOrder α] (l : List α) : List α :=
  l.foldr insertDedup []

theorem mem_insertDedup {α : Type} [LinearOrder α] {a x : α} {l : List α} :
    x ∈ insertDedup a l ↔ x = a ∨ x ∈ l := by
  induction l with
  | nil => simp [insertDedup]
  | cons b bs ih =>
    by_cases hab : a = b
    · subst hab
      simp [insertDedup]
    · by_cases hlt : a < b
      · simp [insertDedup, hab, hlt]
      · simp [insertDedup, hab, hlt, ih]
        tauto

theorem sorted_insertDedup {α : Type} [LinearOrder α] {a : α} {l : List α}
    (h : l.Sorted (· < ·)) : (insertDedup a l).Sorted (· < ·) := by
  induction l with
  | nil => simp [insertDedup]
  | cons b bs ih =>
    by_cases hab : a = b
    · simpa [insertDedup, hab] using h
    · by_cases hlt : a < b
      · simp only [insertDedup, if_neg hab, if_pos hlt]
        refine List.sorted_cons.2 ⟨?_, h⟩
        intro x hx
        rcases List.mem_cons.1 hx with rfl | hx
        · exact hlt
        · exact lt_trans hlt ((List.sorted_cons.1 h).1 x hx)
      · have hgt : b < a := by
          rcases lt_trichotomy a b with h1 | h1 | h1
          · exact absurd h1 hlt
          · exact absurd h1 hab
          · exact h1
        simp only [insertDedup, if_neg hab, if_neg hlt]
        rcases List.sorted_cons.1 h with ⟨hb, hbs⟩
        refine List.sorted_cons.2 ⟨?_, ih hbs⟩
        intro x hx
        rcases mem_insertDedup.1 hx with rfl | hx
        · exact hgt
        · exact hb x hx

theorem sorted_sortedDedup {α : Type} [LinearOrder α] (l : List α) :
    (sortedDedup l).Sorted (· < ·) := by
  induction l with
  | nil => simp [sortedDedup]
  | cons a as ih => exact sorted_insertDedup ih

theorem mem_sortedDedup {α : Type} [LinearOrder α] {x : α} {l : List α} :
    x ∈ sortedDedup l ↔ x ∈ l := by
  induction l with
  | nil => simp [sortedDedup]
  | cons a as ih =>
    simp only [sortedDedup, List.foldr_cons, List.mem_cons]
    rw [show as.foldr insertDedup [] = sortedDedup as from rfl] at *
    rw [mem_insertDedup, ih]

theorem nodup_sortedDedup {α : Type} [LinearOrder α] (l : List α) :
    (sortedDedup l).Nodup := by
  have h := sorted_sortedDedup l
  exact List.Pairwise.imp (fun hlt => ne_of_lt hlt) h

/-! ### Data model

`tasks(id, day, task)` rows and `progress(date, task_id, completed)` rows.
Tables are modelled as lists of rows in rowid order. -/

/-- A row of the `tasks` table. -/
structure TaskRow where
  id : Nat
  day : String
  task : String
deriving DecidableEq, Repr

/-- A row of the `progress` table (primary key `(date, task_id)`;
`update_progress` stores `int(completed)`, so the column is 0/1, i.e. a
boolean). -/
structure PRow where
  date : String
  task_id : Nat
  completed : Bool
deriving DecidableEq, Repr

/-- `get_tasks(day)`: `SELECT id, task FROM tasks WHERE day = ?`. -/
def get_tasks (tasks : List TaskRow) (day : String) : List (Nat × String) :=
  (tasks.filter (fun t => t.day = day)).map (fun t => (t.id, t.task))

/-- `update_progress(date, task_id, completed)`:
`INSERT OR REPLACE INTO progress(date, task_id, completed)` — SQLite
deletes any row with the same primary key `(date, task_id)` and appends the
new row. -/
def update_progress (progress : List PRow) (date : String) (task_id : Nat)
    (completed : Bool) : List PRow :=
  (progress.filter (fun r => ¬(r.date = date ∧ r.task_id = task_id))) ++
    [⟨date, task_id, completed⟩]

/-- `get_progress(date)` builds `{task_id: bool(completed)}` from the rows
with that date; as in the dict comprehension, a later row with the same
task id wins (with the primary key there is at most one anyway).  Modelled
as the lookup function of the resulting mapping. -/
def get_progress (progress : List PRow) (date : String) (task_id : Nat) :
    Option Bool :=
  ((progress.filter (fun r => r.date = date ∧ r.task_id = task_id)).getLast?).map
    (·.completed)

/-! ### `get_weekly_progress` -/

/-- Per-date completion percentage against the count of tasks assigned to
that date's weekday: `completed / total * 100` as a rational. -/
def ratePct (completed total : Nat) : ℚ :=
  (completed : ℚ) / (total : ℚ) * 100

/-- The loop body of `get_weekly_progress` over the distinct dates: parse
the date (a failure raises `ValueError`, aborting the whole computation),
count the tasks assigned to that weekday and the completed records of that
date, and emit `(date, percentage)` with percentage 0 when no tasks are
assigned. -/
def weeklyRows (tasks : List TaskRow) (progress : List PRow) :
    List String → Except Unit (List (String × ℚ))
  | [] => .ok []
  | ds :: rest =>
    match parseDate ds with
    | none => .error ()
    | some dt =>
      let total := (get_tasks tasks (dayName dt)).length
      let completed := progress.countP (fun r => r.date = ds && r.completed)
      match weeklyRows tasks progress rest with
      | .error e => .error e
      | .ok l =>
        .ok ((ds, if 0 < total then ratePct completed total else 0) :: l)

/-- `get_weekly_progress()`: iterate over
`SELECT DISTINCT date FROM progress ORDER BY date` (the final
`progress_data.sort` is a no-op since the dates are already ascending). -/
def get_weekly_progress (tasks : List TaskRow) (progress : List PRow) :
    Except Unit (List (String × ℚ)) :=
  weeklyRows tasks progress (sortedDedup (progress.map (·.date)))

/-! ### `calculate_statistics` -/

/-- Parse the `(date, completed)` rows of the progress table; `none` models
the `ValueError` `pd.to_datetime` raises on the first malformed date, which
aborts the whole computation. -/
def parseRecords : List (String × Bool) → Option (List (Date × Bool))
  | [] => some []
  | r :: rest =>
    match parseDate r.1, parseRecords rest with
    | some d, some l => some ((d, r.2) :: l)
    | _, _ => none

/-- The `overall` entry of the statistics dictionary. -/
structure Overall where
  total_tasks : Nat
  completed_tasks : Nat
  completion_rate : ℚ
deriving DecidableEq, Repr

/-- A row of the `daily` statistics table (index `Date`, columns
`Completed_Tasks`, `Total_Tasks`, `Daily_Completion_Rate`). -/
structure DailyRow where
  date : Date
  completed_tasks : Nat
  total_tasks : Nat
  rate : ℚ
deriving DecidableEq, Repr

/-- A row of the `weekly` statistics table (index `Week`). -/
structure WeeklyRow where
  week : Nat
  completed_tasks : Nat
  total_tasks : Nat
  rate : ℚ
deriving DecidableEq, Repr

/-- A row of the `daywise` statistics table after
`reindex(['Monday', ..., 'Sunday'])`: a weekday name with either its
aggregated `(Completed_Tasks, Total_Tasks, Daywise_Completion_Rate)` or
`none` for the all-NaN row `reindex` inserts for a label with no records. -/
structure DaywiseRow where
  day_name : String
  stats : Option (Nat × Nat × ℚ)
deriving DecidableEq, Repr

/-- A row of the `heatmap` table (grouped by `['Date', 'Day_Name']`;
`Day_Name` is a function of `Date`, so the distinct key pairs in their
lexicographic group-by order are exactly the distinct dates ascending, each
paired with its weekday name). -/
structure HeatRow where
  date : Date
  day_name : String
  completed_tasks : Nat
  total_tasks : Nat
deriving DecidableEq, Repr

/-- The dictionary returned by `calculate_statistics` on non-empty data. -/
structure Stats where
  overall : Overall
  daily : List DailyRow
  weekly : List WeeklyRow
  daywise : List DaywiseRow
  heatmap : List HeatRow
deriving DecidableEq, Repr

/-- The fixed weekday order used by `daywise_stats.reindex(...)`. -/
def weekdayNames : List String :=
  ["Monday", "Tuesday", "Wednesday", "Thursday", "Friday", "Saturday", "Sunday"]

/-- Number of completed records in a group (`Completed` is `astype(int)` of
the boolean, so the group's `sum` is the count of `True`s). -/
def completedCount (recs : List (Date × Bool)) : Nat :=
  recs.countP (fun r => r.2)

/-- `df.groupby('Date').agg({'Completed': ['sum', 'count']})` plus the rate
column, one row per distinct date in ascending order. -/
def dailyStats (recs : List (Date × Bool)) : List DailyRow :=
  (sortedDedup (recs.map (·.1))).map (fun d =>
    let g := recs.filter (fun r => r.1 = d)
    ⟨d, completedCount g, g.length, ratePct (completedCount g) g.length⟩)

/-- `df.groupby('Week')` where `Week = Date.dt.isocalendar().week` — the
bare ISO week number, not qualified by year. -/
def weeklyStats (recs : List (Date × Bool)) : List WeeklyRow :=
  (sortedDedup (recs.map (fun r => isoWeek r.1))).map (fun w =>
    let g := recs.filter (fun r => isoWeek r.1 = w)
    ⟨w, completedCount g, g.length, ratePct (completedCount g) g.length⟩)

/-- `df.groupby('Day_Name')` followed by `reindex` over the seven weekday
names: a label with at least one record keeps its aggregates, a label with
none gets the NaN row (`none`). -/
def daywiseStats (recs : List (Date × Bool)) : List DaywiseRow :=
  weekdayNames.map (fun w =>
    let g := recs.filter (fun r => dayName r.1 = w)
    ⟨w, if g.isEmpty then none
        else some (completedCount g, g.length,
          ratePct (completedCount g) g.length)⟩)

/-- `df.groupby(['Date', 'Day_Name'])` with `reset_index`: one row per
distinct date (the weekday name is determined by the date), ascending. -/
def heatmapStats (recs : List (Date × Bool)) : List HeatRow :=
  (sortedDedup (recs.map (·.1))).map (fun d =>
    let g := recs.filter (fun r => r.1 = d)
    ⟨d, dayName d, completedCount g, g.length⟩)

/-- The statistics computed from the parsed records (the body of
`calculate_statistics` after `pd.to_datetime` succeeded). -/
def computeStats (recs : List (Date × Bool)) : Stats :=
  { overall :=
      { total_tasks := recs.length
        completed_tasks := completedCount recs
        completion_rate :=
          if 0 < recs.length then ratePct (completedCount recs) recs.length
          else 0 }
    daily := dailyStats recs
    weekly := weeklyStats recs
    daywise := daywiseStats recs
    heatmap := heatmapStats recs }

/-- `calculate_statistics()`: `SELECT date, completed FROM progress`;
returns `None` (`ok none`) on an empty table, raises (`error`) if any date
fails to parse, and otherwise returns the statistics dictionary. -/
def calculate_statistics (rows : List (String × Bool)) :
    Except Unit (Option Stats) :=
  if rows.isEmpty then .ok none
  else
    match parseRecords rows with
    | none => .error ()
    | some recs => .ok (some (computeStats recs))

/-! ### The "frequently incomplete" ranking in `show_insights` -/

/-- The join `FROM progress JOIN tasks ON progress.task_id = tasks.id
WHERE progress.completed = 0`, projected to `tasks.task`: a record whose
`task_id` matches no task row contributes nothing. -/
def joinIncomplete (tasks : List TaskRow) (progress : List PRow) : List String :=
  (progress.filter (fun r => r.completed = false)).flatMap (fun r =>
    (tasks.filter (fun t => t.id = r.task_id)).map (fun t => t.task))

/-- Descending insertion by the count component (stable). -/
def insertByCount (a : String × Nat) :
    List (String × Nat) → List (String × Nat)
  | [] => [a]
  | b :: bs => if b.2 < a.2 then a :: b :: bs else b :: insertByCount a bs

/-- Sort rows by count, largest first. -/
def sortByCountDesc (l : List (String × Nat)) : List (String × Nat) :=
  l.foldr insertByCount []

/-- The ranking query: `GROUP BY tasks.task`, `COUNT(*)`,
`ORDER BY incomplete_count DESC LIMIT 5`. -/
def topIncomplete (tasks : List TaskRow) (progress : List PRow) :
    List (String × Nat) :=
  let joined := joinIncomplete tasks progress
  let grouped := (sortedDedup joined).map (fun s =>
    (s, joined.countP (fun x => x = s)))
  (sortByCountDesc grouped).take 5

/-! ### Basic lemmas about the embedding -/

theorem parseRecords_length :
    ∀ {rows : List (String × Bool)} {recs : List (Date × Bool)},
      parseRecords rows = some recs → recs.length = rows.length := by
  intro rows
  induction rows with
  | nil => intro recs h; simp [parseRecords] at h; simp [← h]
  | cons r rest ih =>
    intro recs h
    simp only [parseRecords] at h
    cases hp : parseDate r.1 with
    | none => rw [hp] at h; simp at h
    | some d =>
      rw [hp] at h
      cases hr : parseRecords rest with
      | none => rw [hr] at h; simp at h
      | some l =>
        rw [hr] at h
        simp only [Option.some.injEq] at h
        subst h
        simp [ih hr]

theorem parseRecords_of_forall_isSome :
    ∀ {rows : List (String × Bool)},
      (∀ r ∈ rows, (parseDate r.1).isSome) →
      ∃ recs, parseRecords rows = some recs := by
  intro rows
  induction rows with
  | nil => intro _; exact ⟨[], rfl⟩
  | cons r rest ih =>
    intro h
    have hr := h r (List.mem_cons_self r rest)
    cases hp : parseDate r.1 with
    | none => rw [hp] at hr; simp at hr
    | some d =>
      obtain ⟨l, hl⟩ := ih (fun x hx => h x (List.mem_cons_of_mem r hx))
      exact ⟨(d, r.2) :: l, by simp [parseRecords, hp, hl]⟩

theorem parseRecords_none_of_bad :
    ∀ {rows : List (String × Bool)},
      (∃ r ∈ rows, parseDate r.1 = none) → parseRecords rows = none := by
  intro rows
  induction rows with
  | nil => rintro ⟨r, hr, -⟩; simp at hr
  | cons x rest ih =>
    rintro ⟨r, hr, hbad⟩
    rcases List.mem_cons.1 hr with rfl | hr
    · simp [parseRecords, hbad]
    · simp only [parseRecords]
      rw [ih ⟨r, hr, hbad⟩]
      cases parseDate x.1 <;> rfl

/-- Inversion for a successful, non-empty statistics computation. -/
theorem calculate_statistics_ok_some {rows : List (String × Bool)} {s : Stats}
    (h : calculate_statistics rows = .ok (some s)) :
    ∃ recs, parseRecords rows = some recs ∧ recs ≠ [] ∧ s = computeStats recs := by
  by_cases he : rows.isEmpty
  · simp [calculate_statistics, he] at h
  · simp only [calculate_statistics, he, if_neg, Bool.false_eq_true, if_false] at h
    cases hp : parseRecords rows with
    | none => rw [hp] at h; simp at h
    | some recs =>
      rw [hp] at h
      simp only [Except.ok.injEq, Option.some.injEq] at h
      refine ⟨recs, rfl, ?_, h.symm⟩
      intro hnil
      have := parseRecords_length hp
      rw [hnil] at this
      simp only [List.length_nil] at this
      exact he (List.isEmpty_iff_length_eq_zero.2 this.symm)

theorem ratePct_nonneg (c t : Nat) : 0 ≤ ratePct c t := by
  unfold ratePct
  positivity

theorem ratePct_le_100 {c t : Nat} (h : c ≤ t) : ratePct c t ≤ 100 := by
  unfold ratePct
  rcases Nat.eq_zero_or_pos t with ht | ht
  · subst ht
    interval_cases c
    norm_num
  · have h1 : (c : ℚ) / (t : ℚ) ≤ 1 := by
      rw [div_le_one (by exact_mod_cast ht)]
      exact_mod_cast h
    calc (c : ℚ) / (t : ℚ) * 100 ≤ 1 * 100 := by
          exact mul_le_mul_of_nonneg_right h1 (by norm_num)
      _ = 100 := by norm_num

theorem completedCount_le_length (recs : List (Date × Bool)) :
    completedCount recs ≤ recs.length :=
  List.countP_le_length _

/-- Every group built from a key present in the data is non-empty. -/
theorem filter_length_pos_of_mem_keys {α κ : Type} [DecidableEq κ]
    {f : α → κ} {l : List α} {k : κ} (h : ∃ x ∈ l, f x = k) :
    0 < (l.filter (fun x => f x = k)).length := by
  obtain ⟨x, hx, hfx⟩ := h
  have : x ∈ l.filter (fun x => f x = k) :=
    List.mem_filter.2 ⟨hx, by simp [hfx]⟩
  exact List.length_pos.2 (List.ne_nil_of_mem this)

/-- Inversion for a successful `get_weekly_progress` loop: one row per
input date in order, each carrying the percentage formula of the code. -/
theorem weeklyRows_ok {tasks : List TaskRow} {progress : List PRow} :
    ∀ {ds : List String} {l : List (String × ℚ)},
      weeklyRows tasks progress ds = .ok l →
      l.map Prod.fst = ds ∧
      ∀ p ∈ l, ∃ dt, parseDate p.1 = some dt ∧
        p.2 = (if 0 < (get_tasks tasks (dayName dt)).length
               then ratePct (progress.countP (fun r => r.date = p.1 && r.completed))
                    (get_tasks tasks (dayName dt)).length
               else 0) := by
  intro ds
  induction ds with
  | nil =>
    intro l h
    simp only [weeklyRows, Except.ok.injEq] at h
    subst h
    simp
  | cons d rest ih =>
    intro l h
    simp only [weeklyRows] at h
    cases hp : parseDate d with
    | none => rw [hp] at h; simp at h
    | some dt =>
      rw [hp] at h
      cases hr : weeklyRows tasks progress rest with
      | error e => rw [hr] at h; simp at h
      | ok l' =>
        rw [hr] at h
        simp only [Except.ok.injEq] at h
        subst h
        obtain ⟨hmap, hrows⟩ := ih hr
        refine ⟨by simp [hmap], ?_⟩
        intro p hp'
        rcases List.mem_cons.1 hp' with rfl | hp'
        · exact ⟨dt, hp, rfl⟩
        · exact hrows p hp'

/-- A malformed date anywhere in the date list aborts the whole loop. -/
theorem weeklyRows_error {tasks : List TaskRow} {progress : List PRow} :
    ∀ {ds : List String}, (∃ d ∈ ds, parseDate d = none) →
      weeklyRows tasks progress ds = .error () := by
  intro ds
  induction ds with
  | nil => rintro ⟨d, hd, -⟩; simp at hd
  | cons x rest ih =>
    rintro ⟨d, hd, hbad⟩
    rcases List.mem_cons.1 hd with rfl | hd
    · simp [weeklyRows, hbad]
    · simp only [weeklyRows]
      cases hp : parseDate x with
      | none => rfl
      | some dt => rw [ih ⟨d, hd, hbad⟩]

/-! ### Claim C1 -/

/-- One Monday task. -/
def tasksOneMonday : List TaskRow := [⟨1, "Monday", "gym"⟩]

/-- Two completed records on Monday 2024-01-01 — e.g. the second task was
completed and later deleted from the `tasks` table; its record remains. -/
def progTwoCompleted : List PRow :=
  [⟨"2024-01-01", 1, true⟩, ⟨"2024-01-01", 2, true⟩]

/-- C1 is false as stated: with one task assigned to Monday and two
completed records on a Monday date, the single `get_weekly_progress` row
carries percentage `2/1*100 = 200 > 100`. -/
theorem weekly_progress_pct_above_100 :
    get_weekly_progress tasksOneMonday progTwoCompleted =
      .ok [("2024-01-01", ratePct 2 1)] ∧ 100 < ratePct 2 1 :=
  ⟨rfl, by norm_num [ratePct]⟩

/-- C1 (amended): for every non-empty completion log, in every view of
`calculate_statistics` (overall, daily, weekly, daywise, heatmap) the
completed count is at most the total count and the rate lies between 0 and
100; the per-date percentages of `get_weekly_progress` are ≥ 0 but can
exceed 100 when a date has more completed records than tasks currently
assigned to its weekday. -/
theorem stats_views_bounds (rows : List (String × Bool)) (s : Stats)
    (hs : calculate_statistics rows = .ok (some s)) :
    (s.overall.completed_tasks ≤ s.overall.total_tasks ∧
      0 ≤ s.overall.completion_rate ∧ s.overall.completion_rate ≤ 100) ∧
    (∀ r ∈ s.daily, r.completed_tasks ≤ r.total_tasks ∧
      0 ≤ r.rate ∧ r.rate ≤ 100) ∧
    (∀ r ∈ s.weekly, r.completed_tasks ≤ r.total_tasks ∧
      0 ≤ r.rate ∧ r.rate ≤ 100) ∧
    (∀ r ∈ s.daywise, ∀ c t q, r.stats = some (c, t, q) →
      c ≤ t ∧ 0 ≤ q ∧ q ≤ 100) ∧
    (∀ r ∈ s.heatmap, r.completed_tasks ≤ r.total_tasks) ∧
    (∀ (tasks : List TaskRow) (progress : List PRow) (l : List (String × ℚ)),
      get_weekly_progress tasks progress = .ok l → ∀ p ∈ l, 0 ≤ p.2) := by
  obtain ⟨recs, hp, hne, rfl⟩ := calculate_statistics_ok_some hs
  refine ⟨⟨completedCount_le_length recs, ?_, ?_⟩, ?_, ?_, ?_, ?_, ?_⟩
  · simp only [computeStats]
    split
    · exact ratePct_nonneg _ _
    · norm_num
  · simp only [computeStats]
    split
    · exact ratePct_le_100 (completedCount_le_length recs)
    · norm_num
  · intro r hr
    simp only [computeStats, dailyStats, List.mem_map] at hr
    obtain ⟨d, hd, rfl⟩ := hr
    exact ⟨completedCount_le_length _, ratePct_nonneg _ _,
      ratePct_le_100 (completedCount_le_length _)⟩
  · intro r hr
    simp only [computeStats, weeklyStats, List.mem_map] at hr
    obtain ⟨w, hw, rfl⟩ := hr
    exact ⟨completedCount_le_length _, ratePct_nonneg _ _,
      ratePct_le_100 (completedCount_le_length _)⟩
  · intro r hr c t q hstats
    simp only [computeStats, daywiseStats, List.mem_map] at hr
    obtain ⟨w, hw, rfl⟩ := hr
    simp only at hstats
    by_cases hg : (recs.filter (fun r => dayName r.1 = w)).isEmpty
    · rw [if_pos hg] at hstats
      simp at hstats
    · rw [if_neg hg] at hstats
      simp only [Option.some.injEq, Prod.mk.injEq] at hstats
      obtain ⟨rfl, rfl, rfl⟩ := hstats
      exact ⟨completedCount_le_length _, ratePct_nonneg _ _,
        ratePct_le_100 (completedCount_le_length _)⟩
  · intro r hr
    simp only [computeStats, heatmapStats, List.mem_map] at hr
    obtain ⟨d, hd, rfl⟩ := hr
    exact completedCount_le_length _
  · intro tasks progress l hl p hpl
    obtain ⟨-, hrows⟩ := weeklyRows_ok hl
    obtain ⟨dt, -, hpct⟩ := hrows p hpl
    rw [hpct]
    split
    · exact ratePct_nonneg _ _
    · norm_num

/-- Witness for C1 (amended) at a concrete one-record log. -/
theorem stats_views_bounds_witness :
    0 ≤ (computeStats [(⟨2024, 1, 1⟩, true)]).overall.completion_rate ∧
      (computeStats [(⟨2024, 1, 1⟩, true)]).overall.completion_rate ≤ 100 :=
  (stats_views_bounds [("2024-01-01", true)]
    (computeStats [(⟨2024, 1, 1⟩, true)]) rfl).1.2

/-! ### Claim C2 -/

/-- A single completed record on Monday 2024-01-01. -/
def progOneRecord : List PRow := [⟨"2024-01-01", 1, true⟩]

/-- C2: for every distinct date that has at least one completion record,
`get_weekly_progress` emits exactly one row whose percentage is
(completed records that date) / (tasks assigned to that date's weekday,
per the `tasks` table) * 100, with percentage 0 when no tasks are assigned
to that weekday; no row appears for a date with no records. -/
theorem weekly_progress_rows_spec (tasks : List TaskRow) (progress : List PRow)
    (l : List (String × ℚ)) (h : get_weekly_progress tasks progress = .ok l) :
    (l.map Prod.fst).Nodup ∧
    (∀ d : String, d ∈ l.map Prod.fst ↔ ∃ r ∈ progress, r.date = d) ∧
    ∀ p ∈ l, ∃ dt, parseDate p.1 = some dt ∧
      p.2 = (if 0 < (get_tasks tasks (dayName dt)).length
             then ratePct (progress.countP (fun r => r.date = p.1 && r.completed))
                  (get_tasks tasks (dayName dt)).length
             else 0) := by
  obtain ⟨hmap, hrows⟩ := weeklyRows_ok h
  refine ⟨?_, ?_, hrows⟩
  · rw [hmap]
    exact nodup_sortedDedup _
  · intro d
    rw [hmap, mem_sortedDedup, List.mem_map]

/-- Witness for C2 at a one-record log with one Monday task. -/
theorem weekly_progress_rows_spec_witness :
    (([("2024-01-01", ratePct 1 1)] : List (String × ℚ)).map Prod.fst).Nodup ∧
    ("2024-01-01" ∈ ([("2024-01-01", ratePct 1 1)] : List (String × ℚ)).map Prod.fst ↔
      ∃ r ∈ progOneRecord, r.date = "2024-01-01") :=
  ⟨(weekly_progress_rows_spec tasksOneMonday progOneRecord _ rfl).1,
   (weekly_progress_rows_spec tasksOneMonday progOneRecord _ rfl).2.1 "2024-01-01"⟩

/-! ### Claim C3 -/

/-- C3 is false as stated: the non-empty log `[("notadate", true)]` does
not yield a present statistics object — `pd.to_datetime` raises, so the
computation errors out instead. -/
theorem calc_stats_not_some_on_bad_date :
    ([("notadate", true)] : List (String × Bool)) ≠ [] ∧
    calculate_statistics [("notadate", true)] = .error () ∧
    ∀ s : Stats, calculate_statistics [("notadate", true)] ≠ .ok (some s) := by
  refine ⟨by simp, rfl, ?_⟩
  intro s h
  rw [show calculate_statistics [("notadate", true)] = .error () from rfl] at h
  exact Except.noConfusion h

/-- C3 (amended): the empty log yields the explicit "no data" result
(`None`), and `None` is returned only for the empty log; every non-empty
log whose dates all parse yields a present statistics object (a non-empty
log containing a malformed date errors out instead, per the error-handling
design). -/
theorem calc_stats_none_iff_empty :
    calculate_statistics [] = .ok none ∧
    (∀ rows : List (String × Bool), calculate_statistics rows = .ok none → rows = []) ∧
    (∀ rows : List (String × Bool), rows ≠ [] →
      (∀ r ∈ rows, (parseDate r.1).isSome) →
      ∃ s, calculate_statistics rows = .ok (some s)) := by
  refine ⟨rfl, ?_, ?_⟩
  · intro rows h
    by_cases he : rows.isEmpty
    · exact List.isEmpty_iff.1 he
    · simp only [calculate_statistics, he, Bool.false_eq_true, if_false] at h
      cases hp : parseRecords rows with
      | none => rw [hp] at h; exact Except.noConfusion h
      | some recs =>
        rw [hp] at h
        simp at h
  · intro rows hne hparse
    obtain ⟨recs, hp⟩ := parseRecords_of_forall_isSome hparse
    refine ⟨computeStats recs, ?_⟩
    have he : rows.isEmpty = false := by
      cases rows with
      | nil => exact absurd rfl hne
      | cons x xs => rfl
    simp [calculate_statistics, he, hp]

/-- Witness for C3 (amended) at a concrete one-record log. -/
theorem calc_stats_none_iff_empty_witness :
    ∃ s, calculate_statistics [("2024-01-01", true)] = .ok (some s) :=
  calc_stats_none_iff_empty.2.2 [("2024-01-01", true)] (by simp) (by decide)

/-! ### Claim C4 -/

/-- C4: on every successful non-empty computation, the daywise view has
exactly 7 rows in the fixed order Monday..Sunday; a weekday with no
records gets `none` (the NaN row), never a zero-filled row, and every
present row has a positive total. -/
theorem daywise_seven_rows (rows : List (String × Bool))
    (recs : List (Date × Bool)) (s : Stats)
    (hp : parseRecords rows = some recs)
    (hs : calculate_statistics rows = .ok (some s)) :
    s.daywise.map (·.day_name) = weekdayNames ∧
    s.daywise.length = 7 ∧
    ∀ r ∈ s.daywise,
      (r.stats = none ↔ recs.countP (fun x => dayName x.1 = r.day_name) = 0) ∧
      (∀ c t q, r.stats = some (c, t, q) → 0 < t) := by
  obtain ⟨recs', hp', hne, rfl⟩ := calculate_statistics_ok_some hs
  rw [hp'] at hp
  obtain rfl : recs = recs' := by simpa using hp.symm
  refine ⟨?_, ?_, ?_⟩
  · simp [computeStats, daywiseStats, List.map_map]
    rfl
  · simp [computeStats, daywiseStats]
    rfl
  · intro r hr
    simp only [computeStats, daywiseStats, List.mem_map] at hr
    obtain ⟨w, hw, rfl⟩ := hr
    constructor
    · simp only
      by_cases hg : (recs.filter (fun x => dayName x.1 = w)).isEmpty
      · rw [if_pos hg]
        simp only [true_iff]
        rw [List.countP_eq_length_filter]
        exact List.isEmpty_iff_length_eq_zero.1 hg
      · rw [if_neg hg]
        simp only [false_iff, reduceCtorEq]
        rw [List.countP_eq_length_filter]
        intro hlen
        exact hg (List.isEmpty_iff_length_eq_zero.2 hlen)
    · intro c t q hstats
      simp only at hstats
      by_cases hg : (recs.filter (fun x => dayName x.1 = w)).isEmpty
      · rw [if_pos hg] at hstats
        exact Option.noConfusion hstats
      · rw [if_neg hg] at hstats
        simp only [Option.some.injEq, Prod.mk.injEq] at hstats
        obtain ⟨-, rfl, -⟩ := hstats
        rcases Nat.eq_zero_or_pos (recs.filter (fun x => dayName x.1 = w)).length
          with h0 | h0
        · exact absurd (List.isEmpty_iff_length_eq_zero.2 h0) hg
        · exact h0

/-- Witness for C4 at a concrete one-record log. -/
theorem daywise_seven_rows_witness :
    (computeStats [(⟨2024, 1, 1⟩, true)]).daywise.map (·.day_name) = weekdayNames :=
  (daywise_seven_rows [("2024-01-01", true)] [(⟨2024, 1, 1⟩, true)]
    (computeStats [(⟨2024, 1, 1⟩, true)]) rfl rfl).1

/-! ### Claim C5 -/

/-- A duplicate-free list whose members all equal `a`, with `a` among them,
is `[a]`. -/
theorem nodup_all_eq {α : Type} {L : List α} {a : α}
    (hnd : L.Nodup) (hmem : a ∈ L) (hall : ∀ x ∈ L, x = a) : L = [a] := by
  cases L with
  | nil => simp at hmem
  | cons x rest =>
    have hx : x = a := hall x (List.mem_cons_self x rest)
    subst hx
    cases rest with
    | nil => rfl
    | cons y t =>
      have hy : y = x := hall y (List.mem_cons_of_mem x (List.mem_cons_self y t))
      refine absurd ?_ (List.nodup_cons.1 hnd).1
      rw [← hy]
      exact List.mem_cons_self y t

/-- C5: the weekly view groups by the bare ISO week number — its row keys
are exactly the distinct `isoWeek` values of the record dates in ascending
order (so records of different years with the same ISO week number merge
into one bucket), and if all records fall in the same ISO week there is
exactly one row. -/
theorem weekly_bare_iso_week (rows : List (String × Bool))
    (recs : List (Date × Bool)) (s : Stats)
    (hp : parseRecords rows = some recs)
    (hs : calculate_statistics rows = .ok (some s)) :
    s.weekly.map (·.week) = sortedDedup (recs.map (fun r => isoWeek r.1)) ∧
    (s.weekly.map (·.week)).Sorted (· < ·) ∧
    ((∀ r ∈ recs, ∀ r' ∈ recs, isoWeek r.1 = isoWeek r'.1) →
      s.weekly.length = 1) := by
  obtain ⟨recs', hp', hne, rfl⟩ := calculate_statistics_ok_some hs
  rw [hp'] at hp
  obtain rfl : recs = recs' := by simpa using hp.symm
  have hkeys : (computeStats recs).weekly.map (·.week) =
      sortedDedup (recs.map (fun r => isoWeek r.1)) := by
    simp only [computeStats, weeklyStats]
    rw [List.map_map]
    exact List.map_id _
  refine ⟨hkeys, ?_, ?_⟩
  · rw [hkeys]
    exact sorted_sortedDedup _
  · intro hall
    obtain ⟨r0, hr0⟩ := List.exists_mem_of_ne_nil recs hne
    have h1 : sortedDedup (recs.map (fun r => isoWeek r.1)) = [isoWeek r0.1] := by
      refine nodup_all_eq (nodup_sortedDedup _) ?_ ?_
      · exact mem_sortedDedup.2 (List.mem_map_of_mem _ hr0)
      · intro x hx
        rcases List.mem_map.1 (mem_sortedDedup.1 hx) with ⟨r, hr, rfl⟩
        exact hall r hr r0 hr0
    have := congrArg List.length hkeys
    rw [h1] at this
    simpa using this

/-- Witness for C5: records on 2023-01-05 and 2024-01-04 — dates in
different calendar years, both ISO week 1 — produce a single weekly row. -/
theorem weekly_bare_iso_week_witness :
    (computeStats [(⟨2023, 1, 5⟩, true), (⟨2024, 1, 4⟩, false)]).weekly.length = 1 :=
  (weekly_bare_iso_week [("2023-01-05", true), ("2024-01-04", false)]
    [(⟨2023, 1, 5⟩, true), (⟨2024, 1, 4⟩, false)]
    (computeStats [(⟨2023, 1, 5⟩, true), (⟨2024, 1, 4⟩, false)]) rfl rfl).2.2
    (by decide)

/-! ### Claim C6 -/

/-- C6: the daily view has one row per distinct record date, sorted
strictly ascending by date; each row's total is the number of records for
that date, its completed count is the number of completed records for that
date, and its rate is completed/total*100. -/
theorem daily_view_spec (rows : List (String × Bool))
    (recs : List (Date × Bool)) (s : Stats)
    (hp : parseRecords rows = some recs)
    (hs : calculate_statistics rows = .ok (some s)) :
    (s.daily.map (·.date)).Sorted (· < ·) ∧
    (∀ d : Date, d ∈ s.daily.map (·.date) ↔ ∃ r ∈ recs, r.1 = d) ∧
    ∀ r ∈ s.daily,
      r.total_tasks = (recs.filter (fun x => x.1 = r.date)).length ∧
      r.completed_tasks = (recs.filter (fun x => x.1 = r.date)).countP (fun x => x.2) ∧
      r.rate = ratePct r.completed_tasks r.total_tasks := by
  obtain ⟨recs', hp', hne, rfl⟩ := calculate_statistics_ok_some hs
  rw [hp'] at hp
  obtain rfl : recs = recs' := by simpa using hp.symm
  have hkeys : (computeStats recs).daily.map (·.date) =
      sortedDedup (recs.map (·.1)) := by
    simp only [computeStats, dailyStats]
    rw [List.map_map]
    exact List.map_id _
  refine ⟨?_, ?_, ?_⟩
  · rw [hkeys]
    exact sorted_sortedDedup _
  · intro d
    rw [hkeys, mem_sortedDedup, List.mem_map]
  · intro r hr
    simp only [computeStats, dailyStats, List.mem_map] at hr
    obtain ⟨d, hd, rfl⟩ := hr
    exact ⟨rfl, rfl, rfl⟩

/-- Witness for C6 at a two-record log given in unsorted order. -/
theorem daily_view_spec_witness :
    ((computeStats [(⟨2024, 1, 2⟩, true), (⟨2024, 1, 1⟩, false)]).daily.map
      (·.date)).Sorted (· < ·) :=
  (daily_view_spec [("2024-01-02", true), ("2024-01-01", false)]
    [(⟨2024, 1, 2⟩, true), (⟨2024, 1, 1⟩, false)]
    (computeStats [(⟨2024, 1, 2⟩, true), (⟨2024, 1, 1⟩, false)]) rfl rfl).1

/-! ### Claim C7 -/

theorem mem_insertByCount {a x : String × Nat} {l : List (String × Nat)} :
    x ∈ insertByCount a l ↔ x = a ∨ x ∈ l := by
  induction l with
  | nil => simp [insertByCount]
  | cons b bs ih =>
    by_cases h : b.2 < a.2
    · simp [insertByCount, h]
    · simp [insertByCount, h, ih]
      tauto

theorem mem_sortByCountDesc {x : String × Nat} {l : List (String × Nat)} :
    x ∈ sortByCountDesc l ↔ x ∈ l := by
  induction l with
  | nil => simp [sortByCountDesc]
  | cons a as ih =>
    simp only [sortByCountDesc, List.foldr_cons, List.mem_cons]
    rw [show as.foldr insertByCount [] = sortByCountDesc as from rfl]
    rw [mem_insertByCount, ih]

theorem sorted_insertByCount {a : String × Nat} {l : List (String × Nat)}
    (h : l.Pairwise (fun x y => y.2 ≤ x.2)) :
    (insertByCount a l).Pairwise (fun x y => y.2 ≤ x.2) := by
  induction l with
  | nil => simp [insertByCount]
  | cons b bs ih =>
    rcases List.pairwise_cons.1 h with ⟨hb, hbs⟩
    by_cases hlt : b.2 < a.2
    · simp only [insertByCount, if_pos hlt]
      refine List.pairwise_cons.2 ⟨?_, h⟩
      intro x hx
      rcases List.mem_cons.1 hx with rfl | hx
      · exact le_of_lt hlt
      · exact le_trans (hb x hx) (le_of_lt hlt)
    · simp only [insertByCount, if_neg hlt]
      refine List.pairwise_cons.2 ⟨?_, ih hbs⟩
      intro x hx
      rcases mem_insertByCount.1 hx with rfl | hx
      · exact le_of_not_lt hlt
      · exact hb x hx

theorem sorted_sortByCountDesc (l : List (String × Nat)) :
    (sortByCountDesc l).Pairwise (fun x y => y.2 ≤ x.2) := by
  induction l with
  | nil => simp [sortByCountDesc]
  | cons a as ih => exact sorted_insertByCount ih

/-- A filter that only drops elements contributing nothing to a flat map
does not change the flat map. -/
theorem flatMap_filter_eq {α β : Type} (p : α → Bool) (f : α → List β) :
    ∀ (l : List α), (∀ x ∈ l, p x = false → f x = []) →
      (l.filter p).flatMap f = l.flatMap f := by
  intro l
  induction l with
  | nil => intro _; rfl
  | cons x xs ih =>
    intro h
    rw [List.filter_cons, List.flatMap_cons]
    by_cases hp : p x
    · rw [if_pos hp, List.flatMap_cons,
        ih (fun y hy hpy => h y (List.mem_cons_of_mem x hy) hpy)]
    · rw [if_neg hp, ih (fun y hy hpy => h y (List.mem_cons_of_mem x hy) hpy),
        h x (List.mem_cons_self x xs) (by simpa using hp)]
      rfl

/-- Records whose `task_id` matches no task row contribute nothing to the
join (the SQL inner join drops them). -/
theorem joinIncomplete_filter_dangling (tasks : List TaskRow)
    (progress : List PRow) :
    joinIncomplete tasks
      (progress.filter (fun r => tasks.any (fun t => t.id = r.task_id))) =
    joinIncomplete tasks progress := by
  unfold joinIncomplete
  rw [List.filter_comm]
  apply flatMap_filter_eq
  intro r hr hkeep
  have hempty : tasks.filter (fun t => t.id = r.task_id) = [] := by
    rw [List.filter_eq_nil_iff]
    intro t ht hid
    have : tasks.any (fun t => t.id = r.task_id) = true :=
      List.any_eq_true.2 ⟨t, ht, hid⟩
    rw [this] at hkeep
    exact Bool.noConfusion hkeep
  rw [hempty]
  rfl

/-- C7: the frequently-incomplete ranking has at most 5 rows, is sorted
non-increasing by incomplete count, each row counts (per task description)
the joined `completed = false` records, and records whose `task_id`
matches no task row are silently excluded (filtering them away changes
nothing). -/
theorem top_incomplete_spec (tasks : List TaskRow) (progress : List PRow) :
    (topIncomplete tasks progress).length ≤ 5 ∧
    (topIncomplete tasks progress).Pairwise (fun x y => y.2 ≤ x.2) ∧
    (∀ p ∈ topIncomplete tasks progress,
      (∃ t ∈ tasks, t.task = p.1) ∧
      p.2 = (joinIncomplete tasks progress).countP (fun x => x = p.1)) ∧
    topIncomplete tasks
      (progress.filter (fun r => tasks.any (fun t => t.id = r.task_id))) =
      topIncomplete tasks progress := by
  refine ⟨?_, ?_, ?_, ?_⟩
  · exact List.length_take_le _ _
  · exact List.Pairwise.sublist (List.take_sublist _ _)
      (sorted_sortByCountDesc _)
  · intro p hp
    have hp' : p ∈ sortByCountDesc
        ((sortedDedup (joinIncomplete tasks progress)).map (fun s =>
          (s, (joinIncomplete tasks progress).countP (fun x => x = s)))) :=
      List.mem_of_mem_take hp
    rw [mem_sortByCountDesc] at hp'
    rcases List.mem_map.1 hp' with ⟨s, hs, rfl⟩
    refine ⟨?_, rfl⟩
    have hsj : s ∈ joinIncomplete tasks progress := mem_sortedDedup.1 hs
    simp only [joinIncomplete, List.mem_flatMap, List.mem_map,
      List.mem_filter] at hsj
    obtain ⟨r, -, t, ht, rfl⟩ := hsj
    exact ⟨t, ht.1, rfl⟩
  · unfold topIncomplete
    rw [joinIncomplete_filter_dangling]

/-! ### Claim C8 -/

/-- C8: a record whose date string cannot be parsed makes the whole
statistics computation fail — both `calculate_statistics` (via
`pd.to_datetime`) and `get_weekly_progress` (via `datetime.strptime`)
error out instead of dropping the record. -/
theorem malformed_date_rejects (rows : List (String × Bool))
    (tasks : List TaskRow) (progress : List PRow)
    (h1 : ∃ r ∈ rows, parseDate r.1 = none)
    (h2 : ∃ r ∈ progress, parseDate r.date = none) :
    calculate_statistics rows = .error () ∧
    get_weekly_progress tasks progress = .error () := by
  constructor
  · have hne : rows.isEmpty = false := by
      obtain ⟨r, hr, -⟩ := h1
      cases rows with
      | nil => simp at hr
      | cons x xs => rfl
    simp [calculate_statistics, hne, parseRecords_none_of_bad h1]
  · apply weeklyRows_error
    obtain ⟨r, hr, hbad⟩ := h2
    exact ⟨r.date, mem_sortedDedup.2 (List.mem_map_of_mem _ hr), hbad⟩

/-- Witness for C8 at concrete malformed inputs. -/
theorem malformed_date_rejects_witness :
    calculate_statistics [("nope", true)] = .error () ∧
    get_weekly_progress [] [⟨"nope", 1, true⟩] = .error () :=
  malformed_date_rejects [("nope", true)] [] [⟨"nope", 1, true⟩]
    ⟨("nope", true), by simp, rfl⟩ ⟨⟨"nope", 1, true⟩, by simp, rfl⟩

/-! ### Claim C9 -/

/-- Filtering by a predicate that rejects the key `(d, t)` (and the new
row) commutes with the upsert. -/
theorem filter_update_of_mismatch (P : List PRow) (d : String) (t : Nat)
    (b : Bool) (p : PRow → Bool) (hrow : p ⟨d, t, b⟩ = false)
    (himp : ∀ r, p r = true → ¬(r.date = d ∧ r.task_id = t)) :
    (update_progress P d t b).filter p = P.filter p := by
  unfold update_progress
  rw [List.filter_append]
  have h1 : List.filter p [⟨d, t, b⟩] = [] := by
    simp [List.filter_cons, hrow]
  rw [h1, List.append_nil, List.filter_filter]
  apply List.filter_congr
  intro r _
  cases hp : p r with
  | false => simp
  | true => simp [himp r hp]

/-- C9: after `update_progress(d, t, b)`, `get_progress(d)` maps `t` to
exactly `b`; entries of other task ids on date `d` and all records of
other dates are unchanged; the key `(d, t)` occurs in exactly one row; and
re-writing the same key overwrites the single existing record rather than
adding one. -/
theorem update_progress_get_progress (P : List PRow) (d : String) (t : Nat)
    (b : Bool) :
    get_progress (update_progress P d t b) d t = some b ∧
    (∀ t', t' ≠ t →
      get_progress (update_progress P d t b) d t' = get_progress P d t') ∧
    (∀ d', d' ≠ d →
      (update_progress P d t b).filter (fun r => r.date = d') =
        P.filter (fun r => r.date = d')) ∧
    (∀ d' t', d' ≠ d →
      get_progress (update_progress P d t b) d' t' = get_progress P d' t') ∧
    (update_progress P d t b).countP
      (fun r => r.date = d ∧ r.task_id = t) = 1 ∧
    (∀ b', update_progress (update_progress P d t b) d t b' =
      update_progress P d t b') := by
  refine ⟨?_, ?_, ?_, ?_, ?_, ?_⟩
  · unfold get_progress update_progress
    rw [List.filter_append, List.filter_filter]
    have h0 : P.filter (fun r =>
        decide (r.date = d ∧ r.task_id = t) &&
        decide ¬(r.date = d ∧ r.task_id = t)) = [] := by
      rw [List.filter_eq_nil_iff]
      intro r _
      cases hk : decide (r.date = d ∧ r.task_id = t) with
      | false => simp [hk]
      | true => simp [hk]; exact of_decide_eq_true hk
    rw [h0]
    simp
  · intro t' ht'
    unfold get_progress
    rw [filter_update_of_mismatch]
    · simp
      intro h
      exact absurd h.symm ht'
    · rintro r hr ⟨-, hid⟩
      rw [hid] at hr
      simp at hr
      exact ht' hr.2.symm
  · intro d' hd'
    apply filter_update_of_mismatch
    · simp
      exact fun h => absurd h.symm hd'
    · rintro r hr ⟨hdate, -⟩
      rw [hdate] at hr
      simp at hr
      exact hd' hr.symm
  · intro d' t' hd'
    unfold get_progress
    rw [filter_update_of_mismatch]
    · simp
      intro h _
      exact absurd h.symm hd'
    · rintro r hr ⟨hdate, -⟩
      simp at hr
      rw [hdate] at hr
      exact hd' hr.1.symm
  · unfold update_progress
    rw [List.countP_append]
    have h0 : (P.filter (fun r => ¬(r.date = d ∧ r.task_id = t))).countP
        (fun r => r.date = d ∧ r.task_id = t) = 0 := by
      rw [List.countP_eq_zero]
      intro r hr
      have h := (List.mem_filter.1 hr).2
      simp at h ⊢
      tauto
    rw [h0]
    simp
  · intro b'
    unfold update_progress
    rw [List.filter_append, List.filter_filter]
    have h1 : List.filter (fun r => ¬(r.date = d ∧ r.task_id = t))
        ([⟨d, t, b⟩] : List PRow) = [] := by
      simp [List.filter_cons]
    have h2 : P.filter (fun r =>
        decide ¬(r.date = d ∧ r.task_id = t) &&
        decide ¬(r.date = d ∧ r.task_id = t)) =
        P.filter (fun r => ¬(r.date = d ∧ r.task_id = t)) := by
      apply List.filter_congr
      intro r _
      cases hk : decide ¬(r.date = d ∧ r.task_id = t) <;> simp [hk]
    rw [h1, h2, List.append_nil]

/-- Witness for C9 at a concrete store. -/
theorem update_progress_get_progress_witness :
    get_progress (update_progress [⟨"2024-01-01", 2, false⟩]
      "2024-01-01" 1 true) "2024-01-01" 1 = some true ∧
    get_progress (update_progress [⟨"2024-01-01", 2, false⟩]
      "2024-01-01" 1 true) "2024-01-01" 2 =
      get_progress [⟨"2024-01-01", 2, false⟩] "2024-01-01" 2 ∧
    get_progress (update_progress [⟨"2024-01-01", 2, false⟩]
      "2024-01-01" 1 true) "2023-12-31" 2 =
      get_progress [⟨"2024-01-01", 2, false⟩] "2023-12-31" 2 :=
  ⟨(update_progress_get_progress [⟨"2024-01-01", 2, false⟩]
      "2024-01-01" 1 true).1,
   (update_progress_get_progress [⟨"2024-01-01", 2, false⟩]
      "2024-01-01" 1 true).2.1 2 (by decide),
   (update_progress_get_progress [⟨"2024-01-01", 2, false⟩]
      "2024-01-01" 1 true).2.2.2.1 "2023-12-31" 2 (by decide)⟩

/-! ### Claim C10 -/

/-- Splitting a count along a Boolean predicate. -/
theorem countP_split {α : Type} (q p : α → Bool) (l : List α) :
    l.countP p = (l.filter q).countP p + (l.filter (fun x => !(q x))).countP p := by
  induction l with
  | nil => rfl
  | cons x xs ih =>
    rw [List.countP_cons, List.filter_cons, List.filter_cons]
    cases hq : q x with
    | true =>
      simp only [hq, Bool.not_true, if_true, Bool.false_eq_true, if_false,
        List.countP_cons]
      omega
    | false =>
      simp only [hq, Bool.not_false, if_true, Bool.false_eq_true, if_false,
        List.countP_cons]
      omega

/-- The fibres of a key function over a duplicate-free key list covering
all elements partition any count over the list. -/
theorem countP_fiber_sum {α κ : Type} [DecidableEq κ] (f : α → κ)
    (p : α → Bool) :
    ∀ (ks : List κ) (l : List α), ks.Nodup → (∀ x ∈ l, f x ∈ ks) →
      (ks.map (fun k => (l.filter (fun x => f x = k)).countP p)).sum =
        l.countP p := by
  intro ks
  induction ks with
  | nil =>
    intro l _ hmem
    have hl : l = [] := by
      rw [List.eq_nil_iff_forall_not_mem]
      intro x hx
      exact absurd (hmem x hx) (List.not_mem_nil _)
    subst hl
    rfl
  | cons k ks ih =>
    intro l hnd hmem
    rcases List.nodup_cons.1 hnd with ⟨hk, hnd'⟩
    rw [List.map_cons, List.sum_cons]
    have hstep : ∀ k' ∈ ks,
        (l.filter (fun x => f x = k')).countP p =
        ((l.filter (fun x => !(decide (f x = k)))).filter
          (fun x => f x = k')).countP p := by
      intro k' hk'
      rw [List.filter_filter]
      congr 1
      apply List.filter_congr
      intro x _
      cases hfx : decide (f x = k') with
      | false => simp
      | true =>
        have : f x = k' := of_decide_eq_true hfx
        have hne : ¬ f x = k := by
          rw [this]
          intro hkk
          exact hk (hkk ▸ hk')
        simp [hne]
    have hmap : ks.map (fun k' => (l.filter (fun x => f x = k')).countP p) =
        ks.map (fun k' => ((l.filter (fun x => !(decide (f x = k)))).filter
          (fun x => f x = k')).countP p) :=
      List.map_congr_left hstep
    rw [hmap, ih (l.filter (fun x => !(decide (f x = k)))) hnd' ?side]
    case side =>
      intro x hx
      rcases List.mem_filter.1 hx with ⟨hxl, hxk⟩
      rcases List.mem_cons.1 (hmem x hxl) with hfk | hfk
      · rw [hfk] at hxk
        simp at hxk
      · exact hfk
    exact (countP_split (fun x => decide (f x = k)) p l).symm

/-- Same partition statement for lengths. -/
theorem length_fiber_sum {α κ : Type} [DecidableEq κ] (f : α → κ)
    (ks : List κ) (l : List α) (hnd : ks.Nodup) (hmem : ∀ x ∈ l, f x ∈ ks) :
    (ks.map (fun k => (l.filter (fun x => f x = k)).length)).sum = l.length := by
  have h := countP_fiber_sum f (fun _ => true) ks l hnd hmem
  simpa [List.countP_true] using h

section

attribute [local irreducible] isoWeek

/-- C10: the views of one successful computation are mutually consistent:
the overall totals equal the sums of the daily rows' totals and of the
weekly rows' totals, and likewise for the completed counts, because the
date and week groupings each partition the same record set.
(`isoWeek` is locally opaque here: its body is irrelevant to the
partition argument and unfolding it chokes unification.) -/
theorem views_mutually_consistent (rows : List (String × Bool))
    (recs : List (Date × Bool)) (s : Stats)
    (hp : parseRecords rows = some recs)
    (hs : calculate_statistics rows = .ok (some s)) :
    s.overall.total_tasks = (s.daily.map (·.total_tasks)).sum ∧
    s.overall.total_tasks = (s.weekly.map (·.total_tasks)).sum ∧
    s.overall.completed_tasks = (s.daily.map (·.completed_tasks)).sum ∧
    s.overall.completed_tasks = (s.weekly.map (·.completed_tasks)).sum := by
  obtain ⟨recs', hp', hne, rfl⟩ := calculate_statistics_ok_some hs
  rw [hp'] at hp
  obtain rfl : recs = recs' := by simpa using hp.symm
  have hdmem : ∀ x ∈ recs, x.1 ∈ sortedDedup (recs.map (·.1)) :=
    fun x hx => mem_sortedDedup.2 (List.mem_map_of_mem _ hx)
  have hwmem : ∀ x ∈ recs,
      isoWeek x.1 ∈ sortedDedup (recs.map (fun r => isoWeek r.1)) :=
    fun x hx => mem_sortedDedup.2 (List.mem_map_of_mem _ hx)
  have hdtot : (computeStats recs).daily.map (·.total_tasks) =
      (sortedDedup (recs.map (·.1))).map
        (fun d => (recs.filter (fun x => x.1 = d)).length) := by
    simp only [computeStats, dailyStats]
    rw [List.map_map]
    rfl
  have hdcomp : (computeStats recs).daily.map (·.completed_tasks) =
      (sortedDedup (recs.map (·.1))).map
        (fun d => (recs.filter (fun x => x.1 = d)).countP (fun x => x.2)) := by
    simp only [computeStats, dailyStats, completedCount]
    rw [List.map_map]
    rfl
  have hwtot : (computeStats recs).weekly.map (·.total_tasks) =
      (sortedDedup (recs.map (fun r => isoWeek r.1))).map
        (fun w => (recs.filter (fun x => isoWeek x.1 = w)).length) := by
    simp only [computeStats, weeklyStats]
    rw [List.map_map]
    rfl
  have hwcomp : (computeStats recs).weekly.map (·.completed_tasks) =
      (sortedDedup (recs.map (fun r => isoWeek r.1))).map
        (fun w => (recs.filter (fun x => isoWeek x.1 = w)).countP
          (fun x => x.2)) := by
    simp only [computeStats, weeklyStats, completedCount]
    rw [List.map_map]
    rfl
  refine ⟨?_, ?_, ?_, ?_⟩
  · rw [hdtot]
    exact (length_fiber_sum (·.1) _ recs (nodup_sortedDedup _) hdmem).symm
  · rw [hwtot]
    exact (length_fiber_sum (fun r => isoWeek r.1) _ recs
      (nodup_sortedDedup _) hwmem).symm
  · rw [hdcomp]
    exact (countP_fiber_sum (·.1) (fun x => x.2) _ recs
      (nodup_sortedDedup _) hdmem).symm
  · rw [hwcomp]
    exact (countP_fiber_sum (fun r => isoWeek r.1) (fun x => x.2) _ recs
      (nodup_sortedDedup _) hwmem).symm

end

/-- Witness for C10 at a concrete two-record log spanning two dates. -/
theorem views_mutually_consistent_witness :
    (computeStats [(⟨2024, 1, 1⟩, true), (⟨2024, 1, 2⟩, false)]).overall.total_tasks =
      ((computeStats [(⟨2024, 1, 1⟩, true), (⟨2024, 1, 2⟩, false)]).daily.map
        (·.total_tasks)).sum :=
  (views_mutually_consistent [("2024-01-01", true), ("2024-01-02", false)]
    [(⟨2024, 1, 1⟩, true), (⟨2024, 1, 2⟩, false)]
    (computeStats [(⟨2024, 1, 1⟩, true), (⟨2024, 1, 2⟩, false)]) rfl rfl).1
